import Mathlib

/-!
Verification of the natural-language specification of the relightable
Gaussian-splat avatar model (src/ca_body/models/rgca.py and
src/ca_code/scripts/run_test.py) against a shallow embedding of the code.

Tensors are modelled elementwise: an image is a function from an abstract
pixel index type to a scalar, a batch is a function from a Fin index.
The external kernels that the spec treats as opaque primitives (the
Gaussian-splat rasterizer, the SH basis `dir2sh_torch`, the environment-map
sampler, `evaluate_gaussian`, the summary image utilities) are abstract
parameters of the embedded functions.
-/

namespace RGCA

/-- torch.Tensor.clamp(x, lo, hi): min(max(x, lo), hi), elementwise. -/
def clamp {α : Type} [LinearOrder α] (x lo hi : α) : α := min (max x lo) hi

/-- torch.Tensor.clamp(x, max=hi): min(x, hi), elementwise. -/
def clampMax {α : Type} [LinearOrder α] (x hi : α) : α := min x hi

/-- torch.Tensor.clamp(x, min=lo): max(x, lo), elementwise. -/
def clampMin {α : Type} [LinearOrder α] (x lo : α) : α := max x lo

/-!
## AutoEncoder.render (rgca.py lines 124-168)

The Gaussian-splat rasterizer `render_gs` (ca_body/utils/render_gsplat.py)
is an opaque primitive per the spec; its per-image output is a record of
three images: the rendered rgb, the final transmittance, and the raw depth.
The pixel index type `ι` is abstract (it covers pixel position and, for rgb,
the channel).
-/

/-- Output of one call of the opaque rasterizer `render_gs` for one batch
element: the "render", "final_T" and "depth" entries of its result dict. -/
structure RenderOutput (ι : Type) where
  render : ι → ℚ
  final_T : ι → ℚ
  depth : ι → ℚ

/-- The divisor used for depth normalization in AutoEncoder.render line 162:
alpha.clamp(0.05, 1.0). -/
def depthDivisor (alpha : ℚ) : ℚ := clamp alpha (5/100) 1

/-- AutoEncoder.render (rgca.py lines 124-168): loops over the batch calling
render_gs, stacks the per-image results, and returns
rgb = stacked renders, alpha = 1 - stacked final transmittances,
depth = stacked depths / alpha.clamp(0.05, 1.0). -/
def AutoEncoder.render {ι : Type} (B : ℕ) (ro : Fin B → RenderOutput ι) :
    (Fin B → ι → ℚ) × (Fin B → ι → ℚ) × (Fin B → ι → ℚ) :=
  let rgb : Fin B → ι → ℚ := fun b => (ro b).render
  let alpha : Fin B → ι → ℚ := fun b p => 1 - (ro b).final_T p
  let depth : Fin B → ι → ℚ := fun b p => (ro b).depth p / depthDivisor (alpha b p)
  (rgb, alpha, depth)

/-!
## Head-relative coordinates (AutoEncoder.forward, rgca.py lines 232-238)
-/

/-- Head-relative camera position, rgca.py line 236:
((campos - head_pose[:, :3, 3])[:, None] @ head_pose[:, :3, :3])[:, 0],
a row vector (campos - t) multiplied on the right by the rotation block R. -/
def headrelCampos (R : Matrix (Fin 3) (Fin 3) ℚ) (t campos : Fin 3 → ℚ) :
    Fin 3 → ℚ :=
  Matrix.vecMul (campos - t) R

/-- Head-relative light position, rgca.py line 237:
(light_pos - head_pose[:, None, :3, 3]) @ head_pose[:, :3, :3],
for each light the row vector (light_pos - t) times R. -/
def headrelLightPos (R : Matrix (Fin 3) (Fin 3) ℚ) (t lightPos : Fin 3 → ℚ) :
    Fin 3 → ℚ :=
  Matrix.vecMul (lightPos - t) R

end RGCA

namespace RGCA

/-!
## Real-valued elementwise torch functions

The decoder pipeline uses sqrt/exp/log, so it is embedded over ℝ; exact
reals carry no executable code in Lean, hence the noncomputable section.
-/

noncomputable section RealPipeline

/-- Squared euclidean norm of a real vector. -/
def normSq {n : ℕ} (v : Fin n → ℝ) : ℝ := ∑ i, v i ^ 2

/-- Euclidean norm, torch.norm(p=2, dim=-1) of one row. -/
def vnorm {n : ℕ} (v : Fin n → ℝ) : ℝ := Real.sqrt (normSq v)

/-- F.normalize(v, p=2, dim=-1) with the default eps=1e-12:
v divided by max(norm(v), eps). -/
def normalizeV {n : ℕ} (v : Fin n → ℝ) : Fin n → ℝ :=
  fun i => v i / max (vnorm v) (1/10^12)

/-- F.softplus with the default beta=1 and threshold=20:
log(1 + exp x) below the threshold, x above it. -/
def softplus (x : ℝ) : ℝ := if x > 20 then x else Real.log (1 + Real.exp x)

/-- torch.sigmoid: 1 / (1 + exp(-x)). -/
def sigmoid (x : ℝ) : ℝ := 1 / (1 + Real.exp (-x))

/-- Per-row dot product, the (a * b).sum(-1) pattern on 3-vectors. -/
def dot3 (v w : Fin 3 → ℝ) : ℝ := ∑ i, v i * w i

/-!
## Head-relative light SH (AutoEncoder.forward, rgca.py lines 230, 238-240)

The SH basis sh.dir2sh_torch lives in ca_body/utils/sh.py, which is not
under src; the basis is an abstract parameter shb, applied exactly where
the code applies dir2sh_torch.  SH coefficient vectors are indexed by ℕ.
-/

/-- Line 230: light_intensity.expand(-1, -1, 3), the per-light scalar
intensity broadcast to the three color channels. -/
def expandIntensity {L : ℕ} (intensity : Fin L → ℝ) : Fin L → Fin 3 → ℝ :=
  fun l _ => intensity l

/-- Line 238: headrel_light_dir = F.normalize(headrel_light_pos, p=2, dim=-1),
per light. -/
def headrelLightDir (p : Fin 3 → ℝ) : Fin 3 → ℝ := normalizeV p

/-- Lines 239-240: sh_coeffs = sh.dir2sh_torch(n_diff_sh, headrel_light_dir);
headrel_light_sh = (sh_coeffs[:, :, None] * light_intensity[..., None])
.sum(dim=1), elementwise per channel c and coefficient k. -/
def headrelLightSH {L : ℕ} (shb : (Fin 3 → ℝ) → ℕ → ℝ)
    (lightPos : Fin L → Fin 3 → ℝ) (intensity : Fin L → Fin 3 → ℝ) :
    Fin 3 → ℕ → ℝ :=
  fun c k => ∑ l, shb (headrelLightDir (lightPos l)) k * intensity l c

/-- Stated from the claim text of C3, for comparison with headrelLightSH:
the sum over lights of the SH basis evaluated at the normalized
head-relative light direction, weighted by that light's intensity per
color channel. -/
def claimLightSH {L : ℕ} (shb : (Fin 3 → ℝ) → ℕ → ℝ)
    (lightPos : Fin L → Fin 3 → ℝ) (intensity : Fin L → Fin 3 → ℝ) :
    Fin 3 → ℕ → ℝ :=
  fun c k => ∑ l, shb (normalizeV (lightPos l)) k * intensity l c

/-- Finite dot product of SH coefficient vectors over the first n coefficients,
stated from the claim text of C3 (the per-channel dot product). -/
def shDot (n : ℕ) (a b : ℕ → ℝ) : ℝ := ∑ k ∈ Finset.range n, a k * b k

/-!
## PrimDecoder.forward (rgca.py lines 468-582), per Gaussian

All tensor operations of the decoder head are elementwise per Gaussian, so
the embedding works on one Gaussian.  The learned convolutions producing the
feature slabs f_vnocond and f_vcond are learned weights; their outputs at
this Gaussian are the inputs raw (channel index ℕ, vind_ch channels) and
fvc (4 channels).  nc = n_color_sh_coeffs, nm = n_mono_sh_coeffs, so the
channel layout of raw is: 3*nc+nm diffuse SH channels, then 11 Gaussian
parameter channels, then 1 roughness channel.
-/

/-- Lines 507-511: slicing of the diffuse SH coefficients from the feature
slab: the first 3*nc channels reshaped to 3 x nc per-channel color
coefficients, the next nm channels shared (expanded) across the 3 color
channels, concatenated along the coefficient dimension. -/
def diffSHs (nc : ℕ) (raw : ℕ → ℝ) : Fin 3 → ℕ → ℝ :=
  fun c k => if k < nc then raw (c.val * nc + k) else raw (3 * nc + (k - nc))

/-- Line 545: the mirror reflection of v about n,
v - 2 * (v . n) * n, elementwise. -/
def reflectDir (v n : Fin 3 → ℝ) : Fin 3 → ℝ :=
  fun i => v i - 2 * dot3 v n * n i

/-- The opaque external kernels called by PrimDecoder.forward:
dir2uv (ca_body/utils/envmap.py), mipmap_grid_sample
(ca_body/utils/mipmap_sampler.py) and evaluate_gaussian
(extensions/sgutils), none under src.  E is the environment-map type, L the
number of lights.  mip_sample env uv miplevel returns the sampled color;
evaluate_gaussian takes (ref_dir, sigma, light_intensity, headrel_light_pos,
primpos, n_lights, w_type) and returns a color. -/
structure PrimExt (E : Type) (L : ℕ) where
  dir2uv : (Fin 3 → ℝ) → ℕ → Fin 2 → ℝ
  mip_sample : E → (Fin 2 → ℝ) → ℝ → Fin 3 → ℝ
  evaluate_gaussian : (Fin 3 → ℝ) → ℝ → (Fin L → Fin 3 → ℝ) →
    (Fin L → Fin 3 → ℝ) → (Fin 3 → ℝ) → ℕ → ℕ → Fin 3 → ℝ

/-- Per-Gaussian outputs of PrimDecoder.forward (rgca.py lines 566-580). -/
structure PrimPreds where
  color : Fin 3 → ℝ
  opacity : ℝ
  primpos : Fin 3 → ℝ
  primqvec : Fin 4 → ℝ
  primscale : Fin 3 → ℝ
  sigma : ℝ
  spec_vis : ℝ
  spec_nml : Fin 3 → ℝ
  spec_dnml : Fin 3 → ℝ
  diff_color : Fin 3 → ℝ
  spec_color : Fin 3 → ℝ

/-- PrimDecoder.forward (rgca.py lines 468-582) at one Gaussian:
slices the feature slab into diffuse SH coefficients (lines 507-511),
Gaussian parameters (lines 513-519: position offset + uv base position,
normalized quaternion, softplus scale, sigmoid opacity), roughness
(lines 522-524), view-dependent specular visibility and normal
(lines 527-531), diffuse color from the light SH (lines 534-541), and the
specular color by environment lookup or point-light Gaussian evaluation
(lines 543-564); the returned color is (diffuse + specular).clamp(min=0)
(lines 566-569).  lightrot is only consulted in the environment-map branch,
matching the Optional python argument. -/
def PrimDecoder.forward (nc nm : ℕ) {E : Type} {L : ℕ} (ext : PrimExt E L)
    (raw : ℕ → ℝ) (fvc : Fin 4 → ℝ) (primposbase vn : Fin 3 → ℝ)
    (albedo : Fin 3 → ℝ) (headrel_campos : Fin 3 → ℝ)
    (light_intensity : Fin L → Fin 3 → ℝ)
    (headrel_light_pos : Fin L → Fin 3 → ℝ)
    (headrel_light_sh : Fin 3 → ℕ → ℝ) (n_lights : ℕ)
    (preconv_envmap : Option E) (lightrot : Matrix (Fin 3) (Fin 3) ℝ) :
    PrimPreds :=
  let nDiff := 3 * nc + nm
  let diff_shs := diffSHs nc raw
  let primpos : Fin 3 → ℝ := fun i => raw (nDiff + i.val) + primposbase i
  let primqvec := normalizeV (fun i : Fin 4 => raw (nDiff + 3 + i.val))
  let primscale : Fin 3 → ℝ := fun i => softplus (raw (nDiff + 7 + i.val))
  let opacity := sigmoid (raw (nDiff + 10))
  let sigma := clampMin (Real.exp (raw (nDiff + 11)) * (1/10)) (1/100)
  let spec_vis := sigmoid (fvc 0)
  let spec_dnml : Fin 3 → ℝ := fun i => fvc i.succ
  let spec_nml := normalizeV (fun i => spec_dnml i + vn i)
  let diff_color : Fin 3 → ℝ := fun c =>
    albedo c * ∑ k ∈ Finset.range (nc + nm), diff_shs c k * headrel_light_sh c k
  let view_local := normalizeV (fun i => primpos i - headrel_campos i)
  let ref_dirs := reflectDir view_local spec_nml
  let spec_color : Fin 3 → ℝ :=
    match preconv_envmap with
    | some env =>
      let rotated := Matrix.mulVec lightrot ref_dirs
      let ref_uv := ext.dir2uv rotated 2
      let miplevel := sigma * 5
      fun c => clampMax (ext.mip_sample env ref_uv miplevel c) 1 * spec_vis
    | none =>
      fun c => ext.evaluate_gaussian ref_dirs sigma light_intensity
        headrel_light_pos primpos n_lights 0 c * spec_vis
  { color := fun c => clampMin (diff_color c + spec_color c) 0,
    opacity := opacity, primpos := primpos,
    primqvec := primqvec, primscale := primscale, sigma := sigma,
    spec_vis := spec_vis, spec_nml := spec_nml, spec_dnml := spec_dnml,
    diff_color := diff_color, spec_color := spec_color }

/-!
## Encoder.forward (rgca.py lines 344-366)

The convolutional and linear towers are learned weights, abstracted as
functions meanNet / logvarNet of the (geom, color) inputs; noise stands for
the th.randn_like sample.
-/

/-- Output dict of Encoder.forward. -/
structure EncPreds (n : ℕ) where
  embs : Fin n → ℝ
  embs_mu : Fin n → ℝ
  embs_logvar : Fin n → ℝ

/-- Encoder.forward (rgca.py lines 344-366): embs_mu and embs_logvar are the
scaled head outputs; in training mode embs = embs_mu +
exp(embs_logvar) * noise * noise_std, in eval mode embs = embs_mu.clone(). -/
def Encoder.forward {G C : Type} {n : ℕ}
    (meanNet logvarNet : G → C → Fin n → ℝ)
    (mean_scale logvar_scale noise_std : ℝ)
    (training : Bool) (noise : Fin n → ℝ) (geom : G) (color : C) :
    EncPreds n :=
  let embs_mu := fun i => meanNet geom color i * mean_scale
  let embs_logvar := fun i => logvarNet geom color i * logvar_scale
  let embs := if training then
      fun i => embs_mu i + Real.exp (embs_logvar i) * noise i * noise_std
    else embs_mu
  ⟨embs, embs_mu, embs_logvar⟩

end RealPipeline

/-!
## RGCASummary.__call__ (rgca.py lines 585-684)

The diagnostics dict is modelled as an association list in insertion order.
The image-grid slab computations (lines 607-651) and the depth-normal image
(lines 674-676) are built from utility kernels (make_grid, eval_sh,
depth2normals) that the spec treats as excluded summary plumbing; their
values are abstract inputs here.  The conditional ground-truth block
(lines 656-662) and the clamps are concrete.
-/

/-- The precomputed diagnostic slab images of RGCASummary.__call__
(rgca.py lines 607-651 and 674-676), abstract here. -/
structure SummarySlabs (V : Type) where
  sh_slab : V
  diff_sh_slab : V
  spec_slab : V
  spec_normal_slab : V
  spec_vis_slab : V
  spec_rough_slab : V
  opacity_slab : V
  light_sh : V
  depth_nml : V

/-- The opaque image utilities used by RGCASummary.__call__:
linear2srgb and scale_diff_image (ca_body/utils/image.py, not under src),
and the final make_grid / uint8 conversion of lines 681-682. -/
structure SummaryExt (ι : Type) where
  linear2srgb : (ι → ℚ) → (ι → ℚ)
  scale_diff_image : (ι → ℚ) → (ι → ℚ)
  to_grid : (ι → ℚ) → (ι → ℚ)

/-- RGCASummary.__call__ (rgca.py lines 585-684): builds the diag dict in
insertion order; after the slab entries, if the batch has an "image" entry it
adds "gt" = linear2srgb(gt).clamp(0,1) and
"diff" = scale_diff_image((rgb - image).clamp(-1,1)).clamp(0,1), then
"render", "alpha", the optional "weight" and "mesh_nml" entries, and
"depth_nml"; finally every value is passed through the make_grid / uint8
conversion (lines 681-682), which keeps the keys. -/
def summaryCall {ι : Type} (ext : SummaryExt ι) (slabs : SummarySlabs (ι → ℚ))
    (rgb alpha : ι → ℚ) (image_weight mesh_nml : Option (ι → ℚ))
    (image : Option (ι → ℚ)) : List (String × (ι → ℚ)) :=
  let base := [("sh_slab", slabs.sh_slab), ("diff_sh_slab", slabs.diff_sh_slab),
    ("spec_slab", slabs.spec_slab), ("spec_normal_slab", slabs.spec_normal_slab),
    ("spec_vis_slab", slabs.spec_vis_slab),
    ("spec_rough_slab", slabs.spec_rough_slab),
    ("opacity_slab", slabs.opacity_slab), ("light_sh", slabs.light_sh)]
  let render := fun p => clamp (ext.linear2srgb rgb p) 0 1
  let gtdiff := match image with
    | some img =>
      let diff := ext.scale_diff_image (fun q => clamp (rgb q - img q) (-1) 1)
      [("gt", fun p => clamp (ext.linear2srgb img p) 0 1),
       ("diff", fun p => clamp (diff p) 0 1)]
    | none => []
  let tail1 := [("render", render), ("alpha", fun p => clamp (alpha p) 0 1)]
  let wt := match image_weight with
    | some w => [("weight", w)]
    | none => []
  let mn := match mesh_nml with
    | some m => [("mesh_nml", fun p => 1/2 * (- m p) + 1/2)]
    | none => []
  let diag := base ++ gtdiff ++ tail1 ++ wt ++ mn ++ [("depth_nml", slabs.depth_nml)]
  diag.map (fun kv => (kv.1, ext.to_grid kv.2))

/-!
## run_test.main (src/ca_code/scripts/run_test.py lines 29-88)
-/

/-- The externally observable steps of run_test.main, in program order. -/
inductive TestEvent : Type
  | buildTrainDataset
  | loadModel
  | loadLoss
  | buildTrainLoader
  | loadCheckpoint
  | buildTestDataset
  | buildTestLoader
  | loadSummary
  | runTest
deriving DecidableEq

/-- The part of the test configuration that run_test.main branches on:
config.test with its optional "ckpt" entry. -/
structure TestConfig where
  ckpt : Option String

/-- run_test.main (run_test.py lines 29-88) as the trace of its observable
steps: the train dataset, model, loss and loader are built; then, if
config.test has a "ckpt" entry, the checkpoint is loaded into the model,
otherwise ValueError("No checkpoint provided") is raised; then the test
dataset, loader and summary are built and test() runs the test batches. -/
def main (cfg : TestConfig) : Except String (List TestEvent) := do
  let setup := [TestEvent.buildTrainDataset, TestEvent.loadModel,
    TestEvent.loadLoss, TestEvent.buildTrainLoader]
  let ckptStep ← match cfg.ckpt with
    | some _ => pure [TestEvent.loadCheckpoint]
    | none => throw "No checkpoint provided"
  pure (setup ++ ckptStep ++ [TestEvent.buildTestDataset,
    TestEvent.buildTestLoader, TestEvent.loadSummary, TestEvent.runTest])

/-- C1: For every batch, AutoEncoder.render returns per image: rgb equal to the
rasterizer render output, alpha equal to one minus the rasterizer final
transmittance final_T, and depth equal to the rasterizer raw depth divided by
alpha clamped to the range [0.05, 1.0], stacked over the batch dimension. -/
theorem render_outputs {ι : Type} (B : ℕ) (ro : Fin B → RenderOutput ι)
    (b : Fin B) (p : ι) :
    (AutoEncoder.render B ro).1 b p = (ro b).render p ∧
    (AutoEncoder.render B ro).2.1 b p = 1 - (ro b).final_T p ∧
    (AutoEncoder.render B ro).2.2 b p =
      (ro b).depth p / clamp (1 - (ro b).final_T p) (5/100) 1 := by
  refine ⟨rfl, rfl, ?_⟩
  simp [AutoEncoder.render, depthDivisor]

/-- C8: In AutoEncoder.render the divisor used for depth normalization is
alpha clamped to [0.05, 1.0], hence bounded below by 0.05 and never zero,
whatever transmittance the rasterizer outputs. -/
theorem depthDivisor_pos (alpha : ℚ) :
    5/100 ≤ depthDivisor alpha ∧ depthDivisor alpha ≠ 0 := by
  have h : 5/100 ≤ depthDivisor alpha := by
    unfold depthDivisor clamp
    exact le_min (le_trans (le_max_right _ _) (le_refl _)) (by norm_num)
  exact ⟨h, by intro h0; rw [h0] at h; norm_num at h⟩

/-- C2: For a head_pose with orthonormal rotation block R and translation t,
the head-relative camera position computed in AutoEncoder.forward equals the
camera position expressed in the head frame, Rᵀ (campos - t), likewise for
every light position; and these head-relative positions are invariant under a
rigid motion (orthonormal S, translation u) applied jointly to head_pose,
campos, and light_pos. -/
theorem headrel_correct_and_invariant
    (R S : Matrix (Fin 3) (Fin 3) ℚ) (t u campos lightPos : Fin 3 → ℚ)
    (hR : R.transpose * R = 1) (hS : S.transpose * S = 1) :
    headrelCampos R t campos = Matrix.mulVec R.transpose (campos - t) ∧
    headrelLightPos R t lightPos = Matrix.mulVec R.transpose (lightPos - t) ∧
    headrelCampos (S * R) (S.mulVec t + u) (S.mulVec campos + u) =
      headrelCampos R t campos ∧
    headrelLightPos (S * R) (S.mulVec t + u) (S.mulVec lightPos + u) =
      headrelLightPos R t lightPos := by
  have hrow : ∀ (A : Matrix (Fin 3) (Fin 3) ℚ) (x : Fin 3 → ℚ),
      Matrix.vecMul x A = Matrix.mulVec A.transpose x := by
    intro A x
    rw [← Matrix.vecMul_transpose, Matrix.transpose_transpose]
  have hmove : ∀ (A : Matrix (Fin 3) (Fin 3) ℚ) (x y : Fin 3 → ℚ),
      headrelCampos (S * A) (S.mulVec y + u) (S.mulVec x + u) =
        headrelCampos A y x := by
    intro A x y
    unfold headrelCampos
    have h1 : S.mulVec x + u - (S.mulVec y + u) = S.mulVec (x - y) := by
      rw [Matrix.mulVec_sub]; abel
    rw [h1, ← Matrix.vecMul_transpose, Matrix.vecMul_vecMul,
      ← Matrix.mul_assoc, hS, Matrix.one_mul]
  refine ⟨hrow R _, hrow R _, hmove R campos t, ?_⟩
  have h := hmove R lightPos t
  unfold headrelCampos at h
  unfold headrelLightPos
  exact h

/-- Witness for C2 at concrete inputs: R the identity, S a quarter-turn about
the z axis, concrete translations and positions. -/
theorem headrel_correct_and_invariant_witness :
    ((Matrix.of ![![0,-1,0],![1,0,0],![0,0,1]] : Matrix (Fin 3) (Fin 3) ℚ).transpose *
       Matrix.of ![![0,-1,0],![1,0,0],![0,0,1]] = 1) ∧
    headrelCampos ((Matrix.of ![![0,-1,0],![1,0,0],![0,0,1]]) * 1)
        ((Matrix.of ![![0,-1,0],![1,0,0],![0,0,1]]).mulVec ![1,2,3] + ![4,5,6])
        ((Matrix.of ![![0,-1,0],![1,0,0],![0,0,1]]).mulVec ![7,8,9] + ![4,5,6]) =
      headrelCampos 1 ![1,2,3] ![7,8,9] := by
  have hS : (Matrix.of ![![0,-1,0],![1,0,0],![0,0,1]] :
      Matrix (Fin 3) (Fin 3) ℚ).transpose *
      Matrix.of ![![0,-1,0],![1,0,0],![0,0,1]] = 1 := by
    ext i j
    fin_cases i <;> fin_cases j <;>
      simp [Matrix.mul_apply, Fin.sum_univ_three, Matrix.one_apply,
        Matrix.transpose_apply, Matrix.vecHead, Matrix.vecTail]
  have hR : (1 : Matrix (Fin 3) (Fin 3) ℚ).transpose * 1 = 1 := by
    simp
  exact ⟨hS, (headrel_correct_and_invariant 1
    (Matrix.of ![![0,-1,0],![1,0,0],![0,0,1]]) ![1,2,3] ![4,5,6] ![7,8,9]
    ![10,11,12] hR hS).2.2.1⟩

lemma normSq_nonneg {n : ℕ} (v : Fin n → ℝ) : 0 ≤ normSq v :=
  Finset.sum_nonneg fun _ _ => sq_nonneg _

lemma vnorm_normalizeV {n : ℕ} (v : Fin n → ℝ) (h : 1/10^12 ≤ vnorm v) :
    vnorm (normalizeV v) = 1 := by
  have hpos : 0 < vnorm v := lt_of_lt_of_le (by norm_num) h
  have hM : max (vnorm v) (1/10^12) = vnorm v := max_eq_left h
  have h1 : normSq (normalizeV v) = normSq v / (vnorm v)^2 := by
    unfold normSq normalizeV
    rw [hM, Finset.sum_div]
    exact Finset.sum_congr rfl (fun i _ => by rw [div_pow])
  have h2 : (vnorm v)^2 = normSq v := Real.sq_sqrt (normSq_nonneg v)
  have h0 : 0 < normSq v := Real.sqrt_pos.mp hpos
  unfold vnorm
  rw [h1, h2, div_self (ne_of_gt h0), Real.sqrt_one]

lemma vnorm_normalizeV_lt {n : ℕ} (v : Fin n → ℝ) (h : vnorm v < 1/10^12) :
    vnorm (normalizeV v) < 1 := by
  have heps : (0:ℝ) < 1/10^12 := by norm_num
  have hM : max (vnorm v) (1/10^12) = 1/10^12 := max_eq_right h.le
  have h1 : normSq (normalizeV v) = normSq v / (1/10^12)^2 := by
    unfold normSq normalizeV
    rw [hM, Finset.sum_div]
    exact Finset.sum_congr rfl (fun i _ => by rw [div_pow])
  have h2 : vnorm (normalizeV v) = vnorm v / (1/10^12) := by
    unfold vnorm
    rw [h1, Real.sqrt_div (normSq_nonneg v), Real.sqrt_sq heps.le]
  rw [h2, div_lt_one heps]
  exact h

lemma softplus_pos (x : ℝ) : 0 < softplus x := by
  unfold softplus
  by_cases h : x > 20
  · rw [if_pos h]; linarith
  · rw [if_neg h]
    exact Real.log_pos (by linarith [Real.exp_pos x])

lemma sigmoid_pos (x : ℝ) : 0 < sigmoid x := by
  unfold sigmoid
  exact div_pos one_pos (by linarith [Real.exp_pos (-x)])

lemma sigmoid_lt_one (x : ℝ) : sigmoid x < 1 := by
  unfold sigmoid
  rw [div_lt_one (by linarith [Real.exp_pos (-x)])]
  linarith [Real.exp_pos (-x)]

lemma normSq_reflectDir (v n : Fin 3 → ℝ) (hn : normSq n = 1) :
    normSq (reflectDir v n) = normSq v := by
  have expand : normSq (reflectDir v n) =
      normSq v - 4 * dot3 v n * dot3 v n + 4 * dot3 v n * dot3 v n * normSq n := by
    simp only [normSq, reflectDir, dot3, Fin.sum_univ_three]
    ring
  rw [expand, hn]; ring

/-- C3: The head-relative light SH vector equals the sum over lights of the
SH basis evaluated at the normalized head-relative light direction,
weighted by that light's intensity per color channel; and each Gaussian's
diffuse color equals the learned albedo times the per-channel dot product of
its decoded diffuse SH coefficients with that light SH vector. -/
theorem sh_lighting_correct {L : ℕ} (shb : (Fin 3 → ℝ) → ℕ → ℝ)
    (lightPos intensity : Fin L → Fin 3 → ℝ)
    (nc nm : ℕ) {E : Type} (ext : PrimExt E L) (raw : ℕ → ℝ) (fvc : Fin 4 → ℝ)
    (base vn albedo campos : Fin 3 → ℝ) (nl : ℕ) (env : Option E)
    (lr : Matrix (Fin 3) (Fin 3) ℝ) (c : Fin 3) :
    headrelLightSH shb lightPos intensity = claimLightSH shb lightPos intensity ∧
    (PrimDecoder.forward nc nm ext raw fvc base vn albedo campos intensity
        lightPos (headrelLightSH shb lightPos intensity) nl env lr).diff_color c =
      albedo c * shDot (nc + nm) (diffSHs nc raw c)
        (headrelLightSH shb lightPos intensity c) :=
  ⟨rfl, rfl⟩

/-- C4: PrimDecoder.forward computes the per-Gaussian specular color by
exactly one of two models selected on whether preconv_envmap is provided:
if provided, a mirror-direction environment lookup (the reflection direction
rotated by lightrot, converted to UV, the preconvolved map mip-sampled at a
level equal to 5 times the roughness sigma, the result clamped to at most 1);
otherwise a point-light Gaussian evaluation over the head-relative lights;
in both branches multiplied by the view-dependent visibility spec_vis. -/
theorem spec_color_branches {L : ℕ} {E : Type} (ext : PrimExt E L) (nc nm : ℕ)
    (raw : ℕ → ℝ) (fvc : Fin 4 → ℝ) (base vn albedo campos : Fin 3 → ℝ)
    (intensity lightPos : Fin L → Fin 3 → ℝ) (hlsh : Fin 3 → ℕ → ℝ)
    (nl : ℕ) (env : E) (lr : Matrix (Fin 3) (Fin 3) ℝ) (c : Fin 3) :
    (let P := PrimDecoder.forward nc nm ext raw fvc base vn albedo campos
        intensity lightPos hlsh nl (some env) lr
     P.spec_color c = clampMax (ext.mip_sample env
         (ext.dir2uv (lr.mulVec (reflectDir
           (normalizeV (fun i => P.primpos i - campos i)) P.spec_nml)) 2)
         (P.sigma * 5) c) 1 * P.spec_vis) ∧
    (let Q := PrimDecoder.forward nc nm ext raw fvc base vn albedo campos
        intensity lightPos hlsh nl none lr
     Q.spec_color c = ext.evaluate_gaussian (reflectDir
         (normalizeV (fun i => Q.primpos i - campos i)) Q.spec_nml) Q.sigma
         intensity lightPos Q.primpos nl 0 c * Q.spec_vis) :=
  ⟨rfl, rfl⟩

/-- C5 (amended): every decoder output carries the full Gaussian parameter
set (position, orientation, scale, opacity, color, all fields of PrimPreds)
and, unconditionally, every component of primscale is strictly positive,
opacity lies strictly between 0 and 1, sigma is at least 0.01 and the color
is componentwise non-negative; primqvec has unit Euclidean norm whenever the
raw quaternion 4-vector has norm at least the F.normalize epsilon 1e-12, and
Euclidean norm strictly below 1 when the raw norm is below the epsilon. -/
theorem prim_params_wellformed (nc nm : ℕ) {E : Type} {L : ℕ}
    (ext : PrimExt E L) (raw : ℕ → ℝ) (fvc : Fin 4 → ℝ)
    (base vn albedo campos : Fin 3 → ℝ)
    (intensity lightPos : Fin L → Fin 3 → ℝ) (hlsh : Fin 3 → ℕ → ℝ) (nl : ℕ)
    (env : Option E) (lr : Matrix (Fin 3) (Fin 3) ℝ) :
    let P := PrimDecoder.forward nc nm ext raw fvc base vn albedo campos
      intensity lightPos hlsh nl env lr
    (∀ i, 0 < P.primscale i) ∧ 0 < P.opacity ∧ P.opacity < 1 ∧
    1/100 ≤ P.sigma ∧ (∀ c, 0 ≤ P.color c) ∧
    (1/10^12 ≤ vnorm (fun i : Fin 4 => raw (3 * nc + nm + 3 + i.val)) →
      vnorm P.primqvec = 1) ∧
    (vnorm (fun i : Fin 4 => raw (3 * nc + nm + 3 + i.val)) < 1/10^12 →
      vnorm P.primqvec < 1) := by
  intro P
  exact ⟨fun i => softplus_pos _, sigmoid_pos _, sigmoid_lt_one _,
    le_max_right _ _, fun c => le_max_right _ _,
    fun hq => vnorm_normalizeV _ hq, fun hq => vnorm_normalizeV_lt _ hq⟩

/-- Witness for C5 at a concrete decoder input: an all-ones feature slab
(raw quaternion (1,1,1,1) of norm 2, above the epsilon), trivial externals,
no environment map: the unit-norm implication fires. -/
theorem prim_params_wellformed_witness :
    (1/10^12 ≤ vnorm (fun _ : Fin 4 => (1:ℝ))) ∧
    vnorm ((PrimDecoder.forward 16 65
      (⟨fun _ _ _ => 0, fun _ _ _ _ => 0, fun _ _ _ _ _ _ _ _ => 0⟩ :
        PrimExt Unit 1)
      (fun _ => 1) (fun _ => 0) (fun _ => 0) (fun _ => 0) (fun _ => 0)
      (fun _ => 0) (fun _ _ => 0) (fun _ _ => 0) (fun _ _ => 0) 0 none
      1).primqvec) = 1 := by
  have h4 : normSq (fun _ : Fin 4 => (1:ℝ)) = 4 := by
    norm_num [normSq, Fin.sum_univ_four]
  have h2 : vnorm (fun _ : Fin 4 => (1:ℝ)) = 2 := by
    unfold vnorm
    rw [h4, show (4:ℝ) = 2^2 by norm_num,
      Real.sqrt_sq (by norm_num : (0:ℝ) ≤ 2)]
  have hq : (1:ℝ)/10^12 ≤ vnorm (fun _ : Fin 4 => (1:ℝ)) := by
    rw [h2]; norm_num
  exact ⟨hq, (prim_params_wellformed 16 65
    (⟨fun _ _ _ => 0, fun _ _ _ _ => 0, fun _ _ _ _ _ _ _ _ => 0⟩ :
      PrimExt Unit 1)
    (fun _ => 1) (fun _ => 0) (fun _ => 0) (fun _ => 0) (fun _ => 0)
    (fun _ => 0) (fun _ _ => 0) (fun _ _ => 0) (fun _ _ => 0) 0 none
    1).2.2.2.2.2.1 hq⟩

/-- C5 as literally stated fails: with the all-zero feature slab the raw
quaternion is the zero 4-vector, F.normalize divides by its eps, and
primqvec is the zero vector, whose Euclidean norm is 0, not 1. -/
theorem prim_params_counterexample :
    vnorm ((PrimDecoder.forward 16 65
      (⟨fun _ _ _ => 0, fun _ _ _ _ => 0, fun _ _ _ _ _ _ _ _ => 0⟩ :
        PrimExt Unit 1)
      (fun _ => 0) (fun _ => 0) (fun _ => 0) (fun _ => 0) (fun _ => 0)
      (fun _ => 0) (fun _ _ => 0) (fun _ _ => 0) (fun _ _ => 0) 0 none
      1).primqvec) ≠ 1 := by
  have hz : (PrimDecoder.forward 16 65
      (⟨fun _ _ _ => 0, fun _ _ _ _ => 0, fun _ _ _ _ _ _ _ _ => 0⟩ :
        PrimExt Unit 1)
      (fun _ => 0) (fun _ => 0) (fun _ => 0) (fun _ => 0) (fun _ => 0)
      (fun _ => 0) (fun _ _ => 0) (fun _ _ => 0) (fun _ _ => 0) 0 none
      1).primqvec = fun _ : Fin 4 => (0:ℝ) := by
    show normalizeV (fun _ : Fin 4 => (0:ℝ)) = fun _ : Fin 4 => (0:ℝ)
    funext i
    simp [normalizeV]
  rw [hz]
  have h0 : vnorm (fun _ : Fin 4 => (0:ℝ)) = 0 := by
    unfold vnorm
    rw [show normSq (fun _ : Fin 4 => (0:ℝ)) = 0 by simp [normSq],
      Real.sqrt_zero]
  rw [h0]; norm_num

/-- C6: the reflection direction computed in PrimDecoder.forward as
v - 2 (v . n) n has the same Euclidean norm as v for every view direction v
and unit-norm specular normal n; in particular, applied to a normalized
view direction (of any vector with norm at least the F.normalize eps), the
reflection direction is a unit vector. -/
theorem reflect_preserves_norm (v n : Fin 3 → ℝ) (hn : vnorm n = 1) :
    vnorm (reflectDir v n) = vnorm v ∧
    ∀ w : Fin 3 → ℝ, 1/10^12 ≤ vnorm w →
      vnorm (reflectDir (normalizeV w) n) = 1 := by
  have hn' : Real.sqrt (normSq n) = 1 := hn
  have hn2 : normSq n = 1 := by
    rw [← Real.sq_sqrt (normSq_nonneg n), hn']; norm_num
  have key : ∀ u : Fin 3 → ℝ, vnorm (reflectDir u n) = vnorm u := by
    intro u; unfold vnorm; rw [normSq_reflectDir u n hn2]
  exact ⟨key v, fun w hw => by rw [key (normalizeV w), vnorm_normalizeV w hw]⟩

/-- Witness for C6 at concrete vectors: n = (1,0,0), v = (3,4,0). -/
theorem reflect_preserves_norm_witness :
    vnorm (![1, 0, 0] : Fin 3 → ℝ) = 1 ∧
    vnorm (reflectDir ![3, 4, 0] ![1, 0, 0]) = vnorm (![3, 4, 0] : Fin 3 → ℝ) := by
  have h1 : vnorm (![1, 0, 0] : Fin 3 → ℝ) = 1 := by
    have hs : normSq (![1, 0, 0] : Fin 3 → ℝ) = 1 := by
      simp [normSq, Fin.sum_univ_three]
    unfold vnorm
    rw [hs, Real.sqrt_one]
  exact ⟨h1, (reflect_preserves_norm ![3, 4, 0] ![1, 0, 0] h1).1⟩

/-- C7: in eval mode the returned latent code embs equals embs_mu exactly, so
two runs of Encoder.forward on the same geometry and color inputs produce
identical embs, embs_mu and embs_logvar whatever noise samples are drawn;
the noise scaled by exp(embs_logvar) and noise_std is added to embs only in
training mode. -/
theorem encoder_eval_deterministic {G C : Type} {n : ℕ}
    (meanNet logvarNet : G → C → Fin n → ℝ) (ms ls ns : ℝ)
    (noise noise1 noise2 : Fin n → ℝ) (geom : G) (color : C) :
    (Encoder.forward meanNet logvarNet ms ls ns false noise geom color).embs =
      (Encoder.forward meanNet logvarNet ms ls ns false noise geom color).embs_mu ∧
    Encoder.forward meanNet logvarNet ms ls ns false noise1 geom color =
      Encoder.forward meanNet logvarNet ms ls ns false noise2 geom color ∧
    (Encoder.forward meanNet logvarNet ms ls ns true noise geom color).embs =
      fun i =>
        (Encoder.forward meanNet logvarNet ms ls ns true noise geom color).embs_mu i +
        Real.exp ((Encoder.forward meanNet logvarNet ms ls ns true noise geom
          color).embs_logvar i) * noise i * ns :=
  ⟨rfl, rfl, rfl⟩

/-- C9: RGCASummary adds the ground-truth image ("gt") and the difference
image ("diff") to the diagnostics if and only if the batch contains an
"image" entry, and the difference is the predicted rgb minus the
ground-truth image clamped to [-1, 1] before scaling. -/
theorem summary_gt_diff_iff_image {ι : Type} (ext : SummaryExt ι)
    (slabs : SummarySlabs (ι → ℚ)) (rgb alpha : ι → ℚ)
    (iw mn : Option (ι → ℚ)) (img : ι → ℚ) :
    (summaryCall ext slabs rgb alpha iw mn (some img)).lookup "gt" =
      some (ext.to_grid (fun p => clamp (ext.linear2srgb img p) 0 1)) ∧
    (summaryCall ext slabs rgb alpha iw mn (some img)).lookup "diff" =
      some (ext.to_grid (fun p => clamp
        (ext.scale_diff_image (fun q => clamp (rgb q - img q) (-1) 1) p) 0 1)) ∧
    (summaryCall ext slabs rgb alpha iw mn none).lookup "gt" = none ∧
    (summaryCall ext slabs rgb alpha iw mn none).lookup "diff" = none := by
  cases iw <;> cases mn <;> exact ⟨rfl, rfl, rfl, rfl⟩

/-- C10: run_test.main raises ValueError("No checkpoint provided") whenever
config.test contains no "ckpt" entry, before any test batch is processed;
when the entry is present, the checkpoint is loaded into the model before
testing begins (loadCheckpoint occurs in the trace, strictly before
runTest). -/
theorem run_test_checkpoint (c : String) :
    main ⟨none⟩ = Except.error "No checkpoint provided" ∧
    (∃ tr, main ⟨some c⟩ = Except.ok tr ∧
      tr.indexOf TestEvent.loadCheckpoint < tr.indexOf TestEvent.runTest ∧
      tr.indexOf TestEvent.runTest < tr.length) :=
  ⟨rfl, ⟨[TestEvent.buildTrainDataset, TestEvent.loadModel, TestEvent.loadLoss,
    TestEvent.buildTrainLoader, TestEvent.loadCheckpoint,
    TestEvent.buildTestDataset, TestEvent.buildTestLoader,
    TestEvent.loadSummary, TestEvent.runTest], rfl, by decide, by decide⟩⟩

end RGCA
